import Mathlib

/-!
Verification of the lab3 concurrent e-store (`EStore.cpp`, `TaskQueue.cpp`,
`estoresim.cpp`, `RequestHandlers.cpp`) against its design document.

The store state is embedded shallowly: the inventory array becomes a function
from C++ `int` indices to item records, `double` becomes `ℚ`, and the
`INVENTORY_SIZE` constant (declared in the absent header `EStore.h`) becomes an
explicit parameter `N`.  Operations that can block (`buyItem` waiting on a
condition variable) return `Option`, with `none` standing for the execution
that parks on `scond_wait` with no other thread running.  Lock and unlock
calls are reified as an event trace where a claim is about them.
-/

namespace Lab3
/-- One inventory slot, mirroring `struct Item` as used in `EStore.cpp`:
`valid`, `quantity` (C++ `int`, embedded as `Int`), `price` and `discount`
(C++ `double`, embedded as `ℚ`). -/
structure Item where
  valid : Bool
  quantity : Int
  price : ℚ
  discount : ℚ
  deriving DecidableEq

/-- The `Item()` constructor: `valid(false)`; the remaining fields are
uninitialized in C++ and embedded as zero (no claim depends on them). -/
def Item.init : Item := ⟨false, 0, 0, 0⟩

/-- The store state of `class EStore`: the mode flag, the inventory array
(total function on `Int`; indices outside `[0, N)` are never read by the
embedded operations), and the two store-wide parameters. -/
structure Store where
  fineMode : Bool
  inventory : Int → Item
  shippingCost : ℚ
  storeDiscount : ℚ

/-- Pointwise update of the inventory array, `inventory[i] = it`. -/
def updInv (inv : Int → Item) (i : Int) (it : Item) : Int → Item :=
  fun j => if j = i then it else inv j

/-- The per-item cost computed inside `buyManyItems` (EStore.cpp:186-187):
`itemPrice = price * (1 - item.discount)`;
`perItemCost = itemPrice * (1 - discSnap) + shipSnap`. -/
def perCost (disc ship : ℚ) (it : Item) : ℚ :=
  it.price * (1 - it.discount) * (1 - disc) + ship

/-- Modelled from the spec: `totalCost_nolock`, used by `buyItem`
(EStore.cpp:95), is declared in the header `EStore.h`, which is absent from
the sources; the spec defines the effective cost of an item as
`price * (1 - item.discount) * (1 - storeDiscount) + shippingCost`. -/
def totalCost_nolock (s : Store) (it : Item) : ℚ :=
  it.price * (1 - it.discount) * (1 - s.storeDiscount) + s.shippingCost

/-- In-range test for an item id: `0 <= id && id < INVENTORY_SIZE`. -/
def inRangeB (N : Nat) (id : Int) : Bool :=
  decide (0 ≤ id ∧ id < (N : Int))

/-- `std::unique` on a list: drop adjacent duplicates (EStore.cpp:169). -/
def dedupAdj : List Int → List Int
  | [] => []
  | [x] => [x]
  | x :: y :: ys => if x = y then dedupAdj (y :: ys) else x :: dedupAdj (y :: ys)

/-- The deduplicated, ascending-sorted, in-range id list that `buyManyItems`
builds from its argument (EStore.cpp:162-169): filter to `[0, N)`, sort
ascending, remove adjacent duplicates. -/
def canonIds (N : Nat) (l : List Int) : List Int :=
  dedupAdj (List.insertionSort (· ≤ ·) (l.filter (inRangeB N)))

/-- The mutexes of `EStore`: the coarse-mode mutex `mtx`, the fine-mode
`global_mtx`, and the per-item `item_mtx[i]`. -/
inductive MutexId
  | coarse
  | global
  | item (i : Int)
  deriving DecidableEq

/-- A single `smutex_lock` or `smutex_unlock` call. -/
inductive LockEvent
  | lock (m : MutexId)
  | unlock (m : MutexId)
  deriving DecidableEq

/-- Replay a lock trace against the set of mutexes currently held: locking an
already-held mutex or unlocking one that is not held yields `none`. -/
def runTrace : List LockEvent → List MutexId → Option (List MutexId)
  | [], held => some held
  | LockEvent.lock m :: rest, held =>
      if m ∈ held then none else runTrace rest (m :: held)
  | LockEvent.unlock m :: rest, held =>
      if m ∈ held then runTrace rest (held.erase m) else none

/-- A trace is lock-safe when every lock targets a mutex not yet held and
every unlock targets a currently held mutex. -/
def lockSafe (tr : List LockEvent) : Bool :=
  (runTrace tr []).isSome

/-- The validation loop of `buyManyItems` (EStore.cpp:181-191): walk the
sorted ids accumulating the running total, failing on an invalid slot, an
out-of-stock slot, a strictly negative per-item cost, or a running total
over budget. -/
def checkLoop (s : Store) (disc ship budget : ℚ) : List Int → ℚ → Bool
  | [], _ => true
  | id :: rest, total =>
      let it := s.inventory id
      if it.valid = false ∨ it.quantity ≤ 0 then false
      else
        let itemPrice := it.price * (1 - it.discount)
        let perItemCost := itemPrice * (1 - disc) + ship
        if perItemCost < 0 then false
        else
          let total2 := total + perItemCost
          if budget < total2 then false
          else checkLoop s disc ship budget rest total2

/-- The commit loop of `buyManyItems` (EStore.cpp:195-197):
`inventory[id].quantity -= 1` for each id in order. -/
def decAll (inv : Int → Item) (l : List Int) : Int → Item :=
  l.foldl (fun f id => updInv f id { f id with quantity := (f id).quantity - 1 }) inv

/-- Result of one `buyManyItems` call: the store afterwards, whether the
order committed, and the trace of lock operations performed. -/
structure BuyManyResult where
  store : Store
  committed : Bool
  trace : List LockEvent

/-- `EStore::buyManyItems` (EStore.cpp:156-203): drop out-of-range ids, sort
ascending and deduplicate, snapshot the global parameters under `global_mtx`,
lock each remaining item's mutex in ascending order, validate, decrement every
id's quantity when validation passed, and unlock in descending order. -/
def buyManyItems (N : Nat) (s : Store) (item_ids : List Int) (budget : ℚ) :
    BuyManyResult :=
  if item_ids.isEmpty then ⟨s, false, []⟩
  else
    let ids0 := item_ids.filter (inRangeB N)
    if ids0.isEmpty then ⟨s, false, []⟩
    else
      let ids := dedupAdj (List.insertionSort (· ≤ ·) ids0)
      let shipSnap := s.shippingCost
      let discSnap := s.storeDiscount
      let tr := [LockEvent.lock MutexId.global, LockEvent.unlock MutexId.global]
        ++ ids.map (fun i => LockEvent.lock (MutexId.item i))
        ++ ids.reverse.map (fun i => LockEvent.unlock (MutexId.item i))
      let ok := checkLoop s discSnap shipSnap budget ids 0
      if ok then ⟨{ s with inventory := decAll s.inventory ids }, true, tr⟩
      else ⟨s, false, tr⟩

/-- `EStore::buyItem` (EStore.cpp:78-109), coarse mode.  `none` is the
execution that parks on `scond_wait` (the slot is valid but out of stock or
over budget, and no other thread runs to change that). -/
def buyItem (N : Nat) (s : Store) (item_id : Int) (budget : ℚ) : Option Store :=
  if item_id < 0 ∨ (N : Int) ≤ item_id then some s
  else if (s.inventory item_id).valid = false then some s
  else
    let it := s.inventory item_id
    if 0 < it.quantity ∧ totalCost_nolock s it ≤ budget then
      some { s with inventory := updInv s.inventory item_id { it with quantity := it.quantity - 1 } }
    else none

/-- `EStore::addItem` (EStore.cpp:218-240): no-op when out of range or the
slot is already valid; otherwise populate the slot.  The state effect is the
same in both lock modes. -/
def addItem (N : Nat) (s : Store) (item_id : Int) (quantity : Int)
    (price discount : ℚ) : Store :=
  if item_id < 0 ∨ (N : Int) ≤ item_id then s
  else if (s.inventory item_id).valid then s
  else { s with inventory := updInv s.inventory item_id ⟨true, quantity, price, discount⟩ }

/-- `EStore::removeItem` (EStore.cpp:257-273): mark the slot invalid when it
is valid; the other fields are left as they were. -/
def removeItem (N : Nat) (s : Store) (item_id : Int) : Store :=
  if item_id < 0 ∨ (N : Int) ≤ item_id then s
  else if (s.inventory item_id).valid then
    { s with inventory :=
        updInv s.inventory item_id { s.inventory item_id with valid := false } }
  else s

/-- `EStore::addStock` (EStore.cpp:287-303): `quantity += count` when the
slot is valid and `count > 0`. -/
def addStock (N : Nat) (s : Store) (item_id : Int) (count : Int) : Store :=
  if item_id < 0 ∨ (N : Int) ≤ item_id then s
  else if (s.inventory item_id).valid = true ∧ 0 < count then
    { s with inventory := updInv s.inventory item_id { s.inventory item_id with quantity := (s.inventory item_id).quantity + count } }
  else s

/-- `EStore::priceItem` (EStore.cpp:318-342): set the price unconditionally
when the slot is valid. -/
def priceItem (N : Nat) (s : Store) (item_id : Int) (price : ℚ) : Store :=
  if item_id < 0 ∨ (N : Int) ≤ item_id then s
  else if (s.inventory item_id).valid then
    { s with inventory :=
        updInv s.inventory item_id { s.inventory item_id with price := price } }
  else s

/-- `EStore::discountItem` (EStore.cpp:357-381): set the item discount when
the slot is valid. -/
def discountItem (N : Nat) (s : Store) (item_id : Int) (discount : ℚ) : Store :=
  if item_id < 0 ∨ (N : Int) ≤ item_id then s
  else if (s.inventory item_id).valid then
    { s with inventory :=
        updInv s.inventory item_id { s.inventory item_id with discount := discount } }
  else s

/-- `EStore::getItemQuantity` (EStore.cpp:474-490): `0` for an out-of-range
or invalid id, else the quantity; identical in both modes. -/
def getItemQuantity (N : Nat) (s : Store) (item_id : Int) : Int :=
  if item_id < 0 ∨ (N : Int) ≤ item_id then 0
  else if (s.inventory item_id).valid then (s.inventory item_id).quantity else 0

/-- The fine-mode wake-up pass of the global setters (EStore.cpp:414-418,
454-458): for each id ascending, lock the item mutex, broadcast, unlock. -/
def wakeAll : Nat → List LockEvent
  | 0 => []
  | n + 1 => wakeAll n ++
      [LockEvent.lock (MutexId.item n), LockEvent.unlock (MutexId.item n)]

/-- `EStore::setShippingCost` (EStore.cpp:395-422) with its lock trace.
Both branches fall through to the final `smutex_unlock(&mtx)` at
EStore.cpp:421, which is emitted as a trailing `unlock coarse` event. -/
def setShippingCostTr (N : Nat) (s : Store) (cost : ℚ) : Store × List LockEvent :=
  if s.fineMode = false then
    ( { s with shippingCost := cost },
      [LockEvent.lock MutexId.coarse, LockEvent.unlock MutexId.coarse,
        LockEvent.unlock MutexId.coarse] )
  else
    let decreased := cost < s.shippingCost
    ( { s with shippingCost := cost },
      [LockEvent.lock MutexId.global, LockEvent.unlock MutexId.global]
        ++ (if decreased then wakeAll N else [])
        ++ [LockEvent.unlock MutexId.coarse] )

/-- `EStore::setStoreDiscount` (EStore.cpp:436-462) with its lock trace,
including the final `smutex_unlock(&mtx)` at EStore.cpp:461. -/
def setStoreDiscountTr (N : Nat) (s : Store) (discount : ℚ) : Store × List LockEvent :=
  if s.fineMode = false then
    ( { s with storeDiscount := discount },
      [LockEvent.lock MutexId.coarse, LockEvent.unlock MutexId.coarse,
        LockEvent.unlock MutexId.coarse] )
  else
    let increased := s.storeDiscount < discount
    ( { s with storeDiscount := discount },
      [LockEvent.lock MutexId.global, LockEvent.unlock MutexId.global]
        ++ (if increased then wakeAll N else [])
        ++ [LockEvent.unlock MutexId.coarse] )

/-- Project a lock trace to its per-item events: `(true, i)` for a lock of
`item_mtx[i]`, `(false, i)` for an unlock. -/
def itemEvents (tr : List LockEvent) : List (Bool × Int) :=
  tr.filterMap fun e =>
    match e with
    | LockEvent.lock (MutexId.item i) => some (true, i)
    | LockEvent.unlock (MutexId.item i) => some (false, i)
    | _ => none

/-- The identities of the handler functions defined in
`RequestHandlers.cpp`; a C++ function pointer to one of them is embedded as
the corresponding constructor. -/
inductive HandlerId
  | add_item
  | remove_item
  | add_stock
  | change_item_price
  | change_item_discount
  | set_shipping_cost
  | set_store_discount
  | buy_item
  | buy_many_items
  | stop
  deriving DecidableEq

/-- A queued task as used in `TaskQueue.cpp` and `estoresim.cpp`: a handler
function pointer (`none` embeds a null pointer) and an opaque argument. -/
structure Task where
  handler : Option HandlerId
  arg : Nat
  deriving DecidableEq

/-- `make_stop` (estoresim.cpp:48-50): `t.handler = nullptr; t.arg = nullptr`. -/
def make_stop : Task := { handler := none, arg := 0 }

/-- What a wake-up call on a condition variable does: `scond_signal` wakes at
most one waiter, `scond_broadcast` wakes all. -/
inductive WakeEvent
  | signal
  | broadcast
  deriving DecidableEq

/-- The task queue of `TaskQueue.cpp`: a `std::deque<Task>` whose front is
the head. -/
structure TaskQueue where
  q : List Task
  deriving DecidableEq

/-- `TaskQueue::enqueue` (TaskQueue.cpp:69-77): push at the tail, then wake
one waiter via `scond_signal`; the wake event performed is returned alongside
the new queue. -/
def TaskQueue.enqueue (tq : TaskQueue) (t : Task) : TaskQueue × WakeEvent :=
  (⟨tq.q ++ [t]⟩, WakeEvent.signal)

/-- `TaskQueue::dequeue` (TaskQueue.cpp:91-103): take the front element;
`none` embeds the execution that blocks in `scond_wait` on an empty queue. -/
def TaskQueue.dequeue (tq : TaskQueue) : Option (Task × TaskQueue) :=
  match tq.q with
  | [] => none
  | t :: ts => some (t, ⟨ts⟩)

/-- Enqueue a list of tasks in order (a single producer). -/
def enqueueAll (tq : TaskQueue) (ts : List Task) : TaskQueue :=
  ts.foldl (fun q t => (q.enqueue t).1) tq

/-- What a worker does with one dequeued task or over a run. -/
inductive WorkerEvent
  | exec (t : Task)
  | exited
  | nullCall
  deriving DecidableEq

/-- The worker loop of `supplier`/`customer` (estoresim.cpp:115-128,
144-157) applied to the sequence of tasks it dequeues: if
`t.handler == stop_handler` the thread calls `sthread_exit`; otherwise it
calls `t.handler(t.arg)` — which for a null handler pointer is a wild call,
recorded as `nullCall` and ending the run. -/
def workerRun : List Task → List WorkerEvent
  | [] => []
  | t :: ts =>
      if t.handler = some HandlerId.stop then [WorkerEvent.exited]
      else
        match t.handler with
        | none => [WorkerEvent.nullCall]
        | some _ => WorkerEvent.exec t :: workerRun ts

/-- Sum of the per-item costs over a list of ids, with the snapshotted
global parameters. -/
def costSum (s : Store) (disc ship : ℚ) (l : List Int) : ℚ :=
  (l.map (fun id => perCost disc ship (s.inventory id))).sum

/-- A fine-mode store carrying item `0` with quantity 1, price 1, no
discounts and no shipping fee. -/
def wStore1 : Store where
  fineMode := true
  inventory := fun i => if i = 0 then ⟨true, 1, 1, 0⟩ else Item.init
  shippingCost := 0
  storeDiscount := 0

/-- A fine-mode store carrying item `0` with quantity 1, price 10 and an
item discount of 2, so its effective cost is `10 * (1 - 2) = -10 < 0`. -/
def cexNegCost : Store where
  fineMode := true
  inventory := fun i => if i = 0 then ⟨true, 1, 10, 2⟩ else Item.init
  shippingCost := 0
  storeDiscount := 0

/-- A coarse-mode store carrying item `0` with quantity 2, price 1, no
discounts and no shipping fee. -/
def wStoreC : Store where
  fineMode := false
  inventory := fun i => if i = 0 then ⟨true, 2, 1, 0⟩ else Item.init
  shippingCost := 0
  storeDiscount := 0

/-- The data-model invariant of the spec: every valid slot has nonnegative
quantity and nonnegative price. -/
def StoreInv (s : Store) : Prop :=
  ∀ id : Int, (s.inventory id).valid = true →
    0 ≤ (s.inventory id).quantity ∧ 0 ≤ (s.inventory id).price

/-- The all-invalid coarse-mode store. -/
def einv : Store where
  fineMode := false
  inventory := fun _ => Item.init
  shippingCost := 0
  storeDiscount := 0
lemma dedupAdj_cons₂ (x y : Int) (ys : List Int) :
    dedupAdj (x :: y :: ys) =
      if x = y then dedupAdj (y :: ys) else x :: dedupAdj (y :: ys) := rfl

lemma dedupAdj_cons_head (ys : List Int) (y : Int) :
    ∃ t, dedupAdj (y :: ys) = y :: t := by
  induction ys generalizing y with
  | nil => exact ⟨[], rfl⟩
  | cons z zs ih =>
    rw [dedupAdj_cons₂]
    by_cases h : y = z
    · rw [if_pos h, h]
      exact ih z
    · rw [if_neg h]
      exact ⟨_, rfl⟩

lemma mem_dedupAdj (a : Int) : ∀ l : List Int, a ∈ dedupAdj l ↔ a ∈ l := by
  intro l
  induction l with
  | nil => simp [dedupAdj]
  | cons x xs ih =>
    cases xs with
    | nil => simp [dedupAdj]
    | cons y ys =>
      rw [dedupAdj_cons₂]
      by_cases h : x = y
      · rw [if_pos h, ih, h]
        constructor
        · intro hm; exact List.mem_cons_of_mem _ hm
        · intro hm
          rcases List.mem_cons.mp hm with h1 | h1
          · exact h1 ▸ List.mem_cons_self _ _
          · exact h1
      · rw [if_neg h]
        simp only [List.mem_cons, ih]

lemma dedupAdj_chain_lt :
    ∀ l : List Int, List.Chain' (· ≤ ·) l → List.Chain' (· < ·) (dedupAdj l) := by
  intro l
  induction l with
  | nil => intro _; simp [dedupAdj]
  | cons x xs ih =>
    cases xs with
    | nil => intro _; simp [dedupAdj]
    | cons y ys =>
      intro hc
      rw [List.chain'_cons] at hc
      rw [dedupAdj_cons₂]
      by_cases h : x = y
      · simpa [h] using ih hc.2
      · rw [if_neg h]
        obtain ⟨t, ht⟩ := dedupAdj_cons_head ys y
        rw [ht]
        rw [List.chain'_cons]
        refine ⟨lt_of_le_of_ne hc.1 h, ?_⟩
        rw [← ht]
        exact ih hc.2

lemma canonIds_chain_lt (N : Nat) (l : List Int) :
    List.Chain' (· < ·) (canonIds N l) := by
  apply dedupAdj_chain_lt
  exact (List.sorted_insertionSort (· ≤ ·) _).chain'

lemma canonIds_nodup (N : Nat) (l : List Int) : (canonIds N l).Nodup := by
  have h := canonIds_chain_lt N l
  rw [List.chain'_iff_pairwise] at h
  exact h.imp ne_of_lt

lemma mem_canonIds (N : Nat) (l : List Int) (j : Int) :
    j ∈ canonIds N l ↔ j ∈ l ∧ 0 ≤ j ∧ j < (N : Int) := by
  unfold canonIds
  rw [mem_dedupAdj, List.mem_insertionSort, List.mem_filter, inRangeB,
    decide_eq_true_eq]

lemma canonIds_ne_nil (N : Nat) (l : List Int)
    (h : l.filter (inRangeB N) ≠ []) : canonIds N l ≠ [] := by
  unfold canonIds
  rcases hs : List.insertionSort (· ≤ ·) (l.filter (inRangeB N)) with _ | ⟨y, ys⟩
  · exfalso
    apply h
    have := List.perm_insertionSort (· ≤ ·) (l.filter (inRangeB N))
    rw [hs] at this
    exact (List.Perm.nil_eq this).symm
  · obtain ⟨t, ht⟩ := dedupAdj_cons_head ys y
    rw [ht]
    simp

lemma updInv_self (inv : Int → Item) (i : Int) (it : Item) :
    updInv inv i it i = it := by
  simp [updInv]

lemma updInv_other (inv : Int → Item) (i j : Int) (it : Item) (h : j ≠ i) :
    updInv inv i it j = inv j := by
  simp [updInv, h]

lemma decAll_apply :
    ∀ (l : List Int) (inv : Int → Item), l.Nodup → ∀ j : Int,
      decAll inv l j =
        if j ∈ l then { inv j with quantity := (inv j).quantity - 1 } else inv j := by
  intro l
  induction l with
  | nil => intro inv _ j; simp [decAll]
  | cons a t ih =>
    intro inv hnd j
    rw [List.nodup_cons] at hnd
    have hstep : decAll inv (a :: t) =
        decAll (updInv inv a { inv a with quantity := (inv a).quantity - 1 }) t := rfl
    rw [hstep, ih _ hnd.2 j]
    by_cases hj : j = a
    · subst hj
      rw [if_neg (fun hmem => hnd.1 hmem), if_pos (List.mem_cons_self j t)]
      rw [updInv_self]
    · rw [updInv_other _ _ _ _ hj]
      by_cases hjt : j ∈ t
      · rw [if_pos hjt, if_pos (List.mem_cons_of_mem _ hjt)]
      · rw [if_neg hjt, if_neg (by simp [List.mem_cons, hj, hjt])]

lemma checkLoop_true_iff (s : Store) (disc ship budget : ℚ) :
    ∀ (l : List Int) (acc : ℚ),
      checkLoop s disc ship budget l acc = true ↔
        ((∀ id ∈ l, (s.inventory id).valid = true ∧ 0 < (s.inventory id).quantity ∧
            0 ≤ perCost disc ship (s.inventory id)) ∧
          (l = [] ∨ acc + costSum s disc ship l ≤ budget)) := by
  intro l
  induction l with
  | nil => intro acc; simp [checkLoop]
  | cons id rest ih =>
    intro acc
    have hunf : checkLoop s disc ship budget (id :: rest) acc =
        if (s.inventory id).valid = false ∨ (s.inventory id).quantity ≤ 0 then false
        else if perCost disc ship (s.inventory id) < 0 then false
        else if budget < acc + perCost disc ship (s.inventory id) then false
        else checkLoop s disc ship budget rest
          (acc + perCost disc ship (s.inventory id)) := rfl
    rw [hunf]
    by_cases h1 : (s.inventory id).valid = false ∨ (s.inventory id).quantity ≤ 0
    · rw [if_pos h1]
      simp only [Bool.false_eq_true, false_iff]
      rintro ⟨hall, -⟩
      obtain ⟨hv, hq, -⟩ := hall id (List.mem_cons_self id rest)
      rcases h1 with h1 | h1
      · rw [hv] at h1; exact absurd h1 (by decide)
      · exact absurd hq (not_lt.mpr h1)
    · rw [if_neg h1]
      push_neg at h1
      by_cases h2 : perCost disc ship (s.inventory id) < 0
      · rw [if_pos h2]
        simp only [Bool.false_eq_true, false_iff]
        rintro ⟨hall, -⟩
        obtain ⟨-, -, hc⟩ := hall id (List.mem_cons_self id rest)
        exact absurd h2 (not_lt.mpr hc)
      · rw [if_neg h2]
        push_neg at h2
        by_cases h3 : budget < acc + perCost disc ship (s.inventory id)
        · rw [if_pos h3]
          simp only [Bool.false_eq_true, false_iff]
          rintro ⟨hall, hbud⟩
          rcases hbud with hbud | hbud
          · exact List.cons_ne_nil id rest hbud
          · have hrest : 0 ≤ costSum s disc ship rest := by
              apply List.sum_nonneg
              intro x hx
              simp only [List.mem_map] at hx
              obtain ⟨id', hid', rfl⟩ := hx
              exact (hall id' (List.mem_cons_of_mem _ hid')).2.2
            have : acc + costSum s disc ship (id :: rest) =
                acc + perCost disc ship (s.inventory id) + costSum s disc ship rest := by
              simp [costSum]; ring
            rw [this] at hbud
            have := le_trans (le_add_of_nonneg_right hrest) hbud
            exact absurd h3 (not_lt.mpr this)
        · rw [if_neg h3]
          push_neg at h3
          rw [ih]
          constructor
          · rintro ⟨hall, hbr⟩
            refine ⟨?_, Or.inr ?_⟩
            · intro id' hid'
              rcases List.mem_cons.mp hid' with rfl | hid'
              · refine ⟨?_, h1.2, h2⟩
                cases hvb : (s.inventory id').valid
                · exact absurd hvb h1.1
                · rfl
              · exact hall id' hid'
            · have : acc + costSum s disc ship (id :: rest) =
                  acc + perCost disc ship (s.inventory id) + costSum s disc ship rest := by
                simp [costSum]; ring
              rw [this]
              rcases hbr with hbr | hbr
              · subst hbr; simpa [costSum] using h3
              · exact hbr
          · rintro ⟨hall, hbud⟩
            refine ⟨fun id' hid' => hall id' (List.mem_cons_of_mem _ hid'), ?_⟩
            rcases hbud with hbud | hbud
            · exact absurd hbud (List.cons_ne_nil id rest)
            · rcases Decidable.em (rest = []) with hre | hre
              · exact Or.inl hre
              · refine Or.inr ?_
                have hrest : 0 ≤ costSum s disc ship rest := by
                  apply List.sum_nonneg
                  intro x hx
                  simp only [List.mem_map] at hx
                  obtain ⟨id', hid', rfl⟩ := hx
                  exact (hall id' (List.mem_cons_of_mem _ hid')).2.2
                have heq : acc + costSum s disc ship (id :: rest) =
                    acc + perCost disc ship (s.inventory id) + costSum s disc ship rest := by
                  simp [costSum]; ring
                rw [heq] at hbud
                exact hbud

lemma canonIds_nil_of_filter_nil (N : Nat) (l : List Int)
    (h : l.filter (inRangeB N) = []) : canonIds N l = [] := by
  unfold canonIds
  rw [h]
  rfl

lemma buyManyItems_committed_iff (N : Nat) (s : Store) (ids : List Int) (budget : ℚ) :
    (buyManyItems N s ids budget).committed = true ↔
      (canonIds N ids ≠ [] ∧
        (∀ id ∈ canonIds N ids, (s.inventory id).valid = true ∧
          0 < (s.inventory id).quantity ∧
          0 ≤ perCost s.storeDiscount s.shippingCost (s.inventory id)) ∧
        costSum s s.storeDiscount s.shippingCost (canonIds N ids) ≤ budget) := by
  unfold buyManyItems
  by_cases h0 : ids.isEmpty
  · rw [if_pos h0]
    have hnil : ids = [] := List.isEmpty_iff.mp h0
    subst hnil
    have : canonIds N ([] : List Int) = [] := rfl
    simp [this]
  · rw [if_neg h0]
    by_cases h1 : (ids.filter (inRangeB N)).isEmpty
    · rw [if_pos h1]
      have : canonIds N ids = [] :=
        canonIds_nil_of_filter_nil N ids (List.isEmpty_iff.mp h1)
      simp [this]
    · rw [if_neg h1]
      simp only
      have hcan : dedupAdj (List.insertionSort (· ≤ ·) (ids.filter (inRangeB N)))
          = canonIds N ids := rfl
      have hne : canonIds N ids ≠ [] :=
        canonIds_ne_nil N ids (fun hf => h1 (by rw [hf]; rfl))
      by_cases hok : checkLoop s s.storeDiscount s.shippingCost budget
          (dedupAdj (List.insertionSort (· ≤ ·) (ids.filter (inRangeB N)))) 0 = true
      · rw [if_pos hok]
        simp only [true_iff]
        rw [hcan] at hok
        rw [checkLoop_true_iff] at hok
        refine ⟨hne, hok.1, ?_⟩
        rcases hok.2 with h | h
        · exact absurd h hne
        · simpa using h
      · rw [if_neg (by simpa using hok)]
        simp only [Bool.false_eq_true, false_iff]
        rintro ⟨-, hall, hsum⟩
        apply hok
        rw [hcan, checkLoop_true_iff]
        exact ⟨hall, Or.inr (by simpa using hsum)⟩

lemma buyManyItems_store_of_not_committed (N : Nat) (s : Store) (ids : List Int)
    (budget : ℚ) (h : (buyManyItems N s ids budget).committed = false) :
    (buyManyItems N s ids budget).store = s := by
  unfold buyManyItems at *
  by_cases h0 : ids.isEmpty
  · rw [if_pos h0]
  · rw [if_neg h0] at *
    by_cases h1 : (ids.filter (inRangeB N)).isEmpty
    · rw [if_pos h1]
    · rw [if_neg h1] at *
      simp only at h ⊢
      by_cases hok : checkLoop s s.storeDiscount s.shippingCost budget
          (dedupAdj (List.insertionSort (· ≤ ·) (ids.filter (inRangeB N)))) 0 = true
      · rw [if_pos hok] at h
        simp at h
      · rw [if_neg (by simpa using hok)]

lemma buyManyItems_store_of_committed (N : Nat) (s : Store) (ids : List Int)
    (budget : ℚ) (h : (buyManyItems N s ids budget).committed = true) :
    (buyManyItems N s ids budget).store =
      { s with inventory := decAll s.inventory (canonIds N ids) } := by
  unfold buyManyItems at *
  by_cases h0 : ids.isEmpty
  · rw [if_pos h0] at h
    simp at h
  · rw [if_neg h0] at *
    by_cases h1 : (ids.filter (inRangeB N)).isEmpty
    · rw [if_pos h1] at h
      simp at h
    · rw [if_neg h1] at *
      simp only at h ⊢
      by_cases hok : checkLoop s s.storeDiscount s.shippingCost budget
          (dedupAdj (List.insertionSort (· ≤ ·) (ids.filter (inRangeB N)))) 0 = true
      · rw [if_pos hok]; rfl
      · rw [if_neg (by simpa using hok)] at h
        simp at h

lemma buyManyItems_trace_eq (N : Nat) (s : Store) (ids : List Int) (budget : ℚ) :
    ((buyManyItems N s ids budget).trace = [] ∧ canonIds N ids = []) ∨
    (buyManyItems N s ids budget).trace =
      [LockEvent.lock MutexId.global, LockEvent.unlock MutexId.global]
        ++ (canonIds N ids).map (fun i => LockEvent.lock (MutexId.item i))
        ++ (canonIds N ids).reverse.map (fun i => LockEvent.unlock (MutexId.item i)) := by
  unfold buyManyItems
  by_cases h0 : ids.isEmpty
  · rw [if_pos h0]
    refine Or.inl ⟨rfl, ?_⟩
    have hnil : ids = [] := List.isEmpty_iff.mp h0
    subst hnil
    rfl
  · rw [if_neg h0]
    by_cases h1 : (ids.filter (inRangeB N)).isEmpty
    · rw [if_pos h1]
      exact Or.inl ⟨rfl, canonIds_nil_of_filter_nil N ids (List.isEmpty_iff.mp h1)⟩
    · rw [if_neg h1]
      simp only
      by_cases hok : checkLoop s s.storeDiscount s.shippingCost budget
          (dedupAdj (List.insertionSort (· ≤ ·) (ids.filter (inRangeB N)))) 0 = true
      · rw [if_pos hok]; exact Or.inr rfl
      · rw [if_neg (by simpa using hok)]; exact Or.inr rfl

lemma itemEvents_append (a b : List LockEvent) :
    itemEvents (a ++ b) = itemEvents a ++ itemEvents b :=
  List.filterMap_append a b _

lemma itemEvents_lock_map (l : List Int) :
    itemEvents (l.map (fun i => LockEvent.lock (MutexId.item i))) =
      l.map (fun i => (true, i)) := by
  induction l with
  | nil => rfl
  | cons a t ih =>
    simp only [List.map_cons, itemEvents, List.filterMap_cons] at *
    rw [ih]

lemma itemEvents_unlock_map (l : List Int) :
    itemEvents (l.map (fun i => LockEvent.unlock (MutexId.item i))) =
      l.map (fun i => (false, i)) := by
  induction l with
  | nil => rfl
  | cons a t ih =>
    simp only [List.map_cons, itemEvents, List.filterMap_cons] at *
    rw [ih]

/-- Claim C1: `buyManyItems` is all-or-nothing — in fine mode, a failed
order leaves every slot (and the global parameters) unchanged, and a
successful order decrements the quantity of each distinct requested in-range
id by exactly one and changes no other slot. -/
theorem buyManyItems_all_or_nothing
    (N : Nat) (s : Store) (ids : List Int) (budget : ℚ)
    (_hm : s.fineMode = true) :
    ((buyManyItems N s ids budget).committed = false →
      (buyManyItems N s ids budget).store = s) ∧
    ((buyManyItems N s ids budget).committed = true →
      (buyManyItems N s ids budget).store.fineMode = s.fineMode ∧
      (buyManyItems N s ids budget).store.shippingCost = s.shippingCost ∧
      (buyManyItems N s ids budget).store.storeDiscount = s.storeDiscount ∧
      (∀ j : Int, j ∈ ids ∧ 0 ≤ j ∧ j < (N : Int) →
        (buyManyItems N s ids budget).store.inventory j =
          { s.inventory j with quantity := (s.inventory j).quantity - 1 }) ∧
      (∀ j : Int, ¬(j ∈ ids ∧ 0 ≤ j ∧ j < (N : Int)) →
        (buyManyItems N s ids budget).store.inventory j = s.inventory j)) := by
  refine ⟨buyManyItems_store_of_not_committed N s ids budget, ?_⟩
  intro hc
  rw [buyManyItems_store_of_committed N s ids budget hc]
  refine ⟨rfl, rfl, rfl, ?_, ?_⟩
  · intro j hj
    have hmem : j ∈ canonIds N ids := (mem_canonIds N ids j).mpr hj
    show decAll s.inventory (canonIds N ids) j = _
    rw [decAll_apply _ _ (canonIds_nodup N ids) j, if_pos hmem]
  · intro j hj
    have hmem : j ∉ canonIds N ids := fun hmem => hj ((mem_canonIds N ids j).mp hmem)
    show decAll s.inventory (canonIds N ids) j = _
    rw [decAll_apply _ _ (canonIds_nodup N ids) j, if_neg hmem]

/-- Witness for C1: `wStore1` is a fine-mode store, and the theorem applies
to the order `{0, 1}` on it. -/
theorem buyManyItems_all_or_nothing_witness :
    wStore1.fineMode = true ∧
    (((buyManyItems 2 wStore1 [0, 1] 5).committed = false →
      (buyManyItems 2 wStore1 [0, 1] 5).store = wStore1) ∧
    ((buyManyItems 2 wStore1 [0, 1] 5).committed = true →
      (buyManyItems 2 wStore1 [0, 1] 5).store.fineMode = wStore1.fineMode ∧
      (buyManyItems 2 wStore1 [0, 1] 5).store.shippingCost = wStore1.shippingCost ∧
      (buyManyItems 2 wStore1 [0, 1] 5).store.storeDiscount = wStore1.storeDiscount ∧
      (∀ j : Int, j ∈ [(0 : Int), 1] ∧ 0 ≤ j ∧ j < ((2 : Nat) : Int) →
        (buyManyItems 2 wStore1 [0, 1] 5).store.inventory j =
          { wStore1.inventory j with quantity := (wStore1.inventory j).quantity - 1 }) ∧
      (∀ j : Int, ¬(j ∈ [(0 : Int), 1] ∧ 0 ≤ j ∧ j < ((2 : Nat) : Int)) →
        (buyManyItems 2 wStore1 [0, 1] 5).store.inventory j = wStore1.inventory j))) :=
  ⟨rfl, buyManyItems_all_or_nothing 2 wStore1 [0, 1] 5 rfl⟩

/-- Claim C2 (amended): in fine mode, `buyManyItems` commits iff the request
contains at least one in-range id and, over the deduplicated sorted in-range
ids, every slot is valid, has positive quantity, has a nonnegative per-item
cost computed from the snapshotted global parameters, and the costs sum to
at most the budget.  (The claim as frozen omits that out-of-range ids are
dropped rather than failing the order, and that a strictly negative
per-item cost aborts the order.) -/
theorem buyManyItems_commit_characterization
    (N : Nat) (s : Store) (ids : List Int) (budget : ℚ)
    (_hm : s.fineMode = true) :
    (buyManyItems N s ids budget).committed = true ↔
      (canonIds N ids ≠ [] ∧
        (∀ id ∈ canonIds N ids, (s.inventory id).valid = true ∧
          0 < (s.inventory id).quantity ∧
          0 ≤ perCost s.storeDiscount s.shippingCost (s.inventory id)) ∧
        costSum s s.storeDiscount s.shippingCost (canonIds N ids) ≤ budget) :=
  buyManyItems_committed_iff N s ids budget

lemma canonIds_one_zero : canonIds 1 [(0 : Int)] = [0] := rfl

lemma cexNegCost_perCost_neg :
    perCost cexNegCost.storeDiscount cexNegCost.shippingCost
      (cexNegCost.inventory 0) < 0 := by
  norm_num [perCost, cexNegCost]

/-- Counterexample to C2 as frozen: in `cexNegCost` item `0` is valid, in
stock, and the cost sum `-10` is at most the budget `100`, yet the order
`{0}` does not commit (the strictly negative per-item cost aborts it). -/
theorem buyManyItems_commit_cex :
    (buyManyItems 1 cexNegCost [0] 100).committed = false ∧
    (cexNegCost.inventory 0).valid = true ∧
    0 < (cexNegCost.inventory 0).quantity ∧
    costSum cexNegCost cexNegCost.storeDiscount cexNegCost.shippingCost
      (canonIds 1 [0]) ≤ 100 := by
  refine ⟨?_, rfl, by decide, ?_⟩
  · have hnc : (buyManyItems 1 cexNegCost [0] 100).committed ≠ true := by
      intro hc
      rw [buyManyItems_committed_iff] at hc
      have hm0 : (0 : Int) ∈ canonIds 1 [(0 : Int)] := by
        rw [canonIds_one_zero]
        exact List.mem_singleton_self 0
      exact absurd cexNegCost_perCost_neg (not_lt.mpr ((hc.2.1 0 hm0).2.2))
    cases hcc : (buyManyItems 1 cexNegCost [0] 100).committed with
    | false => rfl
    | true => exact absurd hcc hnc
  · rw [canonIds_one_zero]
    norm_num [costSum, perCost, cexNegCost]

/-- Witness for C2 (amended): `wStore1` is fine-mode and the
characterization applies to the order `{0}` with budget `3`. -/
theorem buyManyItems_commit_characterization_witness :
    wStore1.fineMode = true ∧
    ((buyManyItems 2 wStore1 [0] 3).committed = true ↔
      (canonIds 2 [0] ≠ [] ∧
        (∀ id ∈ canonIds 2 [0], (wStore1.inventory id).valid = true ∧
          0 < (wStore1.inventory id).quantity ∧
          0 ≤ perCost wStore1.storeDiscount wStore1.shippingCost (wStore1.inventory id)) ∧
        costSum wStore1 wStore1.storeDiscount wStore1.shippingCost
          (canonIds 2 [0]) ≤ 3)) :=
  ⟨rfl, buyManyItems_commit_characterization 2 wStore1 [0] 3 rfl⟩

/-- Claim C3: in every execution of `buyManyItems`, the per-item mutexes are
acquired in strictly ascending id order, released in strictly descending id
order, the releases are exactly the reverse of the acquisitions, and every
release comes after every acquisition — on every path, commit or abort. -/
theorem buyManyItems_lock_order
    (N : Nat) (s : Store) (ids : List Int) (budget : ℚ) :
    itemEvents (buyManyItems N s ids budget).trace =
      ((canonIds N ids).map (fun i => (true, i)) ++
        (canonIds N ids).reverse.map (fun i => (false, i))) ∧
    List.Chain' (· < ·) (canonIds N ids) ∧
    List.Chain' (· > ·) ((canonIds N ids).reverse) := by
  refine ⟨?_, canonIds_chain_lt N ids, ?_⟩
  · rcases buyManyItems_trace_eq N s ids budget with ⟨h, hc⟩ | h
    · rw [h, hc]
      rfl
    · rw [h, itemEvents_append, itemEvents_append, itemEvents_lock_map,
        itemEvents_unlock_map]
      rfl
  · rw [List.chain'_reverse]
    have h := canonIds_chain_lt N ids
    exact h.imp (fun a b hab => hab)

/-- Claim C10: whenever some requested in-range item has a strictly negative
snapshotted per-item cost, `buyManyItems` aborts the whole order with no
state change. -/
theorem buyManyItems_negative_cost_aborts
    (N : Nat) (s : Store) (ids : List Int) (budget : ℚ) (id : Int)
    (h1 : id ∈ ids) (h2 : 0 ≤ id) (h3 : id < (N : Int))
    (h4 : perCost s.storeDiscount s.shippingCost (s.inventory id) < 0) :
    (buyManyItems N s ids budget).committed = false ∧
    (buyManyItems N s ids budget).store = s := by
  have hmem : id ∈ canonIds N ids := (mem_canonIds N ids id).mpr ⟨h1, h2, h3⟩
  have hnc : (buyManyItems N s ids budget).committed ≠ true := by
    intro hc
    rw [buyManyItems_committed_iff] at hc
    exact absurd h4 (not_lt.mpr ((hc.2.1 id hmem).2.2))
  have hf : (buyManyItems N s ids budget).committed = false := by
    cases hcc : (buyManyItems N s ids budget).committed
    · rfl
    · exact absurd hcc hnc
  exact ⟨hf, buyManyItems_store_of_not_committed N s ids budget hf⟩

/-- Witness for C10: item `0` of `cexNegCost` has per-item cost `-10 < 0`,
and the theorem applies to the order `{0}` with budget `100`. -/
theorem buyManyItems_negative_cost_aborts_witness :
    ((0 : Int) ∈ [(0 : Int)] ∧ (0 : Int) ≤ 0 ∧ (0 : Int) < ((1 : Nat) : Int) ∧
      perCost cexNegCost.storeDiscount cexNegCost.shippingCost
        (cexNegCost.inventory 0) < 0) ∧
    ((buyManyItems 1 cexNegCost [0] 100).committed = false ∧
      (buyManyItems 1 cexNegCost [0] 100).store = cexNegCost) :=
  ⟨⟨by decide, by decide, by decide, cexNegCost_perCost_neg⟩,
    buyManyItems_negative_cost_aborts 1 cexNegCost [0] 100 0
      (by decide) (by decide) (by decide) cexNegCost_perCost_neg⟩

lemma buyItem_unfold (N : Nat) (s : Store) (item_id : Int) (budget : ℚ) :
    buyItem N s item_id budget =
      if item_id < 0 ∨ (N : Int) ≤ item_id then some s
      else if (s.inventory item_id).valid = false then some s
      else if 0 < (s.inventory item_id).quantity ∧ totalCost_nolock s (s.inventory item_id) ≤ budget then
        some { s with inventory := updInv s.inventory item_id { s.inventory item_id with quantity := (s.inventory item_id).quantity - 1 } }
      else none := rfl

lemma buyManyItems_unfold (N : Nat) (s : Store) (item_ids : List Int) (budget : ℚ) :
    buyManyItems N s item_ids budget =
      if item_ids.isEmpty = true then ⟨s, false, []⟩
      else if (item_ids.filter (inRangeB N)).isEmpty = true then ⟨s, false, []⟩
      else if checkLoop s s.storeDiscount s.shippingCost budget (canonIds N item_ids) 0 = true then
        ⟨{ s with inventory := decAll s.inventory (canonIds N item_ids) }, true,
          [LockEvent.lock MutexId.global, LockEvent.unlock MutexId.global]
            ++ (canonIds N item_ids).map (fun i => LockEvent.lock (MutexId.item i))
            ++ (canonIds N item_ids).reverse.map (fun i => LockEvent.unlock (MutexId.item i))⟩
      else ⟨s, false,
          [LockEvent.lock MutexId.global, LockEvent.unlock MutexId.global]
            ++ (canonIds N item_ids).map (fun i => LockEvent.lock (MutexId.item i))
            ++ (canonIds N item_ids).reverse.map (fun i => LockEvent.unlock (MutexId.item i))⟩ := rfl

/-- Claim C4: in coarse mode, `buyItem` returns with no state change when the
id is out of range or the slot is invalid at entry, and when the slot is
valid, in stock, and affordable at the decision point it decrements that
item's quantity by exactly one and changes nothing else. -/
theorem buyItem_spec (N : Nat) (s : Store) (item_id : Int) (budget : ℚ)
    (_hm : s.fineMode = false) :
    ((item_id < 0 ∨ (N : Int) ≤ item_id) → buyItem N s item_id budget = some s) ∧
    ((s.inventory item_id).valid = false → buyItem N s item_id budget = some s) ∧
    ((0 ≤ item_id ∧ item_id < (N : Int)) → (s.inventory item_id).valid = true →
      0 < (s.inventory item_id).quantity →
      totalCost_nolock s (s.inventory item_id) ≤ budget →
      ∃ s', buyItem N s item_id budget = some s' ∧
        s'.fineMode = s.fineMode ∧
        s'.shippingCost = s.shippingCost ∧
        s'.storeDiscount = s.storeDiscount ∧
        s'.inventory item_id =
          { s.inventory item_id with
              quantity := (s.inventory item_id).quantity - 1 } ∧
        (∀ j : Int, j ≠ item_id → s'.inventory j = s.inventory j)) := by
  refine ⟨?_, ?_, ?_⟩
  · intro h
    rw [buyItem_unfold, if_pos h]
  · intro hv
    rw [buyItem_unfold]
    by_cases h : item_id < 0 ∨ (N : Int) ≤ item_id
    · rw [if_pos h]
    · rw [if_neg h, if_pos hv]
  · rintro ⟨h1, h2⟩ hv hq hc
    rw [buyItem_unfold,
      if_neg (not_or.mpr ⟨not_lt.mpr h1, not_le.mpr h2⟩),
      if_neg (by rw [hv]; exact fun h => Bool.noConfusion h),
      if_pos ⟨hq, hc⟩]
    refine ⟨_, rfl, rfl, rfl, rfl, ?_, ?_⟩
    · exact updInv_self _ _ _
    · intro j hj
      exact updInv_other _ _ _ _ hj

/-- Witness for C4: `wStoreC` is a coarse-mode store and the theorem applies
to `buyItem(0, 5)` on it. -/
theorem buyItem_spec_witness :
    wStoreC.fineMode = false ∧
    ((((0 : Int) < 0 ∨ ((1 : Nat) : Int) ≤ 0) → buyItem 1 wStoreC 0 5 = some wStoreC) ∧
    ((wStoreC.inventory 0).valid = false → buyItem 1 wStoreC 0 5 = some wStoreC) ∧
    ((0 ≤ (0 : Int) ∧ (0 : Int) < ((1 : Nat) : Int)) →
      (wStoreC.inventory 0).valid = true →
      0 < (wStoreC.inventory 0).quantity →
      totalCost_nolock wStoreC (wStoreC.inventory 0) ≤ 5 →
      ∃ s', buyItem 1 wStoreC 0 5 = some s' ∧
        s'.fineMode = wStoreC.fineMode ∧
        s'.shippingCost = wStoreC.shippingCost ∧
        s'.storeDiscount = wStoreC.storeDiscount ∧
        s'.inventory 0 =
          { wStoreC.inventory 0 with
              quantity := (wStoreC.inventory 0).quantity - 1 } ∧
        (∀ j : Int, j ≠ 0 → s'.inventory j = wStoreC.inventory j))) :=
  ⟨rfl, buyItem_spec 1 wStoreC 0 5 rfl⟩

/-- Claim C5 (amended): for an out-of-range id, every single-id mutator
leaves the store unchanged, `getItemQuantity` returns the invalid default 0,
and `buyItem` makes no purchase; `buyManyItems`, however, silently drops
out-of-range ids from its list and processes the remaining in-range ids, so
only a call whose ids are all out of range is guaranteed to change nothing. -/
theorem outOfRange_noop (N : Nat) (s : Store) (id : Int)
    (hid : id < 0 ∨ (N : Int) ≤ id) :
    (∀ (q : Int) (p d : ℚ), addItem N s id q p d = s) ∧
    removeItem N s id = s ∧
    (∀ c : Int, addStock N s id c = s) ∧
    (∀ p : ℚ, priceItem N s id p = s) ∧
    (∀ d : ℚ, discountItem N s id d = s) ∧
    getItemQuantity N s id = 0 ∧
    (∀ b : ℚ, buyItem N s id b = some s) ∧
    (∀ (l : List Int) (b : ℚ),
      buyManyItems N s (id :: l) b = buyManyItems N s l b) ∧
    (∀ (l : List Int) (b : ℚ), (∀ x ∈ l, x < 0 ∨ (N : Int) ≤ x) →
      buyManyItems N s l b = ⟨s, false, []⟩) := by
  have hfb : inRangeB N id = false := by
    rw [inRangeB, decide_eq_false_iff_not]
    rintro ⟨ha, hb⟩
    rcases hid with h | h
    · omega
    · omega
  refine ⟨?_, ?_, ?_, ?_, ?_, ?_, ?_, ?_, ?_⟩
  · intro q p d
    unfold addItem
    rw [if_pos hid]
  · unfold removeItem
    rw [if_pos hid]
  · intro c
    unfold addStock
    rw [if_pos hid]
  · intro p
    unfold priceItem
    rw [if_pos hid]
  · intro d
    unfold discountItem
    rw [if_pos hid]
  · unfold getItemQuantity
    rw [if_pos hid]
  · intro b
    rw [buyItem_unfold, if_pos hid]
  · intro l b
    have hfil : (id :: l).filter (inRangeB N) = l.filter (inRangeB N) := by
      rw [List.filter_cons, hfb]
      simp
    have hcan : canonIds N (id :: l) = canonIds N l := by
      unfold canonIds
      rw [hfil]
    rw [buyManyItems_unfold, buyManyItems_unfold, hfil, hcan]
    by_cases hl : l = []
    · subst hl
      simp
    · rw [if_neg (by simp : ¬((id :: l).isEmpty = true)),
        if_neg (show ¬(l.isEmpty = true) from by simpa using hl)]
  · intro l b hall
    have hfe : l.filter (inRangeB N) = [] := by
      induction l with
      | nil => rfl
      | cons x xs ih =>
        have hx : inRangeB N x = false := by
          rw [inRangeB, decide_eq_false_iff_not]
          rintro ⟨ha, hb⟩
          rcases hall x (List.mem_cons_self x xs) with h | h
          · omega
          · omega
        rw [List.filter_cons, hx]
        simp only [Bool.false_eq_true, if_false]
        exact ih (fun y hy => hall y (List.mem_cons_of_mem _ hy))
    unfold buyManyItems
    by_cases h0 : l.isEmpty
    · rw [if_pos h0]
    · rw [if_neg h0, if_pos (by simp [hfe])]

/-- Counterexample to C5 as frozen: the order `{-1, 0}` on `wStore1`
contains the out-of-range id `-1`, yet the call commits and decrements
item `0` — the out-of-range id is dropped, not a reason to no-op. -/
theorem buyManyItems_out_of_range_cex :
    (buyManyItems 1 wStore1 [-1, 0] 5).committed = true ∧
    (buyManyItems 1 wStore1 [-1, 0] 5).store.inventory 0 ≠ wStore1.inventory 0 := by
  have hcanon : canonIds 1 [(-1 : Int), 0] = [0] := rfl
  have hc : (buyManyItems 1 wStore1 [-1, 0] 5).committed = true := by
    rw [buyManyItems_committed_iff]
    refine ⟨by rw [hcanon]; simp, ?_, ?_⟩
    · intro i hmem
      rw [hcanon] at hmem
      rcases List.mem_singleton.mp hmem with rfl
      exact ⟨rfl, by decide, by norm_num [perCost, wStore1]⟩
    · rw [hcanon]
      norm_num [costSum, perCost, wStore1]
  refine ⟨hc, ?_⟩
  have hst := buyManyItems_store_of_committed 1 wStore1 [-1, 0] 5 hc
  rw [hst]
  show decAll wStore1.inventory (canonIds 1 [-1, 0]) 0 ≠ wStore1.inventory 0
  rw [decAll_apply _ _ (canonIds_nodup _ _) 0,
    if_pos (by rw [hcanon]; exact List.mem_singleton_self 0)]
  intro heq
  have hq := congrArg Item.quantity heq
  simp only [wStore1] at hq
  norm_num at hq

/-- Witness for C5 (amended): the theorem applies to the out-of-range id
`-1` on `wStore1` with `N = 1`. -/
theorem outOfRange_noop_witness :
    ((-1 : Int) < 0 ∨ ((1 : Nat) : Int) ≤ -1) ∧
    ((∀ (q : Int) (p d : ℚ), addItem 1 wStore1 (-1) q p d = wStore1) ∧
    removeItem 1 wStore1 (-1) = wStore1 ∧
    (∀ c : Int, addStock 1 wStore1 (-1) c = wStore1) ∧
    (∀ p : ℚ, priceItem 1 wStore1 (-1) p = wStore1) ∧
    (∀ d : ℚ, discountItem 1 wStore1 (-1) d = wStore1) ∧
    getItemQuantity 1 wStore1 (-1) = 0 ∧
    (∀ b : ℚ, buyItem 1 wStore1 (-1) b = some wStore1) ∧
    (∀ (l : List Int) (b : ℚ),
      buyManyItems 1 wStore1 (-1 :: l) b = buyManyItems 1 wStore1 l b) ∧
    (∀ (l : List Int) (b : ℚ), (∀ x ∈ l, x < 0 ∨ ((1 : Nat) : Int) ≤ x) →
      buyManyItems 1 wStore1 l b = ⟨wStore1, false, []⟩)) :=
  ⟨Or.inl (by decide), outOfRange_noop 1 wStore1 (-1) (Or.inl (by decide))⟩

lemma runTrace_append (a b : List LockEvent) (held : List MutexId) :
    runTrace (a ++ b) held = (runTrace a held).bind (fun h2 => runTrace b h2) := by
  induction a generalizing held with
  | nil => rfl
  | cons e rest ih =>
    cases e with
    | lock m =>
      by_cases hm : m ∈ held
      · simp [runTrace, hm]
      · simp [runTrace, hm, ih]
    | unlock m =>
      by_cases hm : m ∈ held
      · simp [runTrace, hm, ih]
      · simp [runTrace, hm]

lemma runTrace_wakeAll (n : Nat) : runTrace (wakeAll n) [] = some [] := by
  induction n with
  | zero => rfl
  | succ k ih =>
    rw [wakeAll, runTrace_append, ih]
    simp [runTrace, List.erase_cons_head]

lemma lockSafe_fineTrace_false (W : List LockEvent)
    (hW : runTrace W [] = some []) :
    lockSafe ([LockEvent.lock MutexId.global, LockEvent.unlock MutexId.global]
      ++ W ++ [LockEvent.unlock MutexId.coarse]) = false := by
  rw [lockSafe, runTrace_append, runTrace_append]
  have h1 : runTrace
      [LockEvent.lock MutexId.global, LockEvent.unlock MutexId.global] [] =
      some [] := by decide
  rw [h1]
  simp [hW, runTrace]

/-- Claim C6 (the code violates it): every execution of `setShippingCost`
and `setStoreDiscount`, in either mode, performs an `smutex_unlock` on a
mutex the call does not hold — the unconditional trailing
`smutex_unlock(&mtx)` is a second unlock in coarse mode and an unlock of a
never-acquired mutex in fine mode. -/
theorem setters_unlock_unheld (N : Nat) (s : Store) (c d : ℚ) :
    lockSafe (setShippingCostTr N s c).2 = false ∧
    lockSafe (setStoreDiscountTr N s d).2 = false := by
  constructor
  · unfold setShippingCostTr
    by_cases hf : s.fineMode = false
    · rw [if_pos hf]
      show lockSafe [LockEvent.lock MutexId.coarse, LockEvent.unlock MutexId.coarse,
        LockEvent.unlock MutexId.coarse] = false
      decide
    · rw [if_neg hf]
      show lockSafe ([LockEvent.lock MutexId.global, LockEvent.unlock MutexId.global]
        ++ (if c < s.shippingCost then wakeAll N else [])
        ++ [LockEvent.unlock MutexId.coarse]) = false
      by_cases hd : c < s.shippingCost
      · rw [if_pos hd]
        exact lockSafe_fineTrace_false _ (runTrace_wakeAll N)
      · rw [if_neg hd]
        exact lockSafe_fineTrace_false _ rfl
  · unfold setStoreDiscountTr
    by_cases hf : s.fineMode = false
    · rw [if_pos hf]
      show lockSafe [LockEvent.lock MutexId.coarse, LockEvent.unlock MutexId.coarse,
        LockEvent.unlock MutexId.coarse] = false
      decide
    · rw [if_neg hf]
      show lockSafe ([LockEvent.lock MutexId.global, LockEvent.unlock MutexId.global]
        ++ (if s.storeDiscount < d then wakeAll N else [])
        ++ [LockEvent.unlock MutexId.coarse]) = false
      by_cases hd : s.storeDiscount < d
      · rw [if_pos hd]
        exact lockSafe_fineTrace_false _ (runTrace_wakeAll N)
      · rw [if_neg hd]
        exact lockSafe_fineTrace_false _ rfl

lemma storeInv_updInv (s : Store) (hInv : StoreInv s) (i : Int) (it : Item)
    (hit : it.valid = true → 0 ≤ it.quantity ∧ 0 ≤ it.price) :
    StoreInv { s with inventory := updInv s.inventory i it } := by
  intro j hv
  by_cases hj : j = i
  · subst hj
    have heq : ({ s with inventory := updInv s.inventory j it } : Store).inventory j = it :=
      updInv_self _ _ _
    rw [heq] at hv ⊢
    exact hit hv
  · have heq : ({ s with inventory := updInv s.inventory i it } : Store).inventory j =
        s.inventory j := updInv_other _ _ _ _ hj
    rw [heq] at hv ⊢
    exact hInv j hv

lemma storeInv_of_inventory_eq (s s' : Store) (h : s'.inventory = s.inventory)
    (hInv : StoreInv s) : StoreInv s' := by
  intro j hv
  rw [h] at hv ⊢
  exact hInv j hv

/-- Claim C7 (amended): the invariant `quantity ≥ 0 ∧ price ≥ 0` on valid
slots is preserved by every store operation, provided `addItem` is called
with nonnegative quantity and price and `priceItem` with a nonnegative
price; the purchase operations and the remaining mutators preserve it for
all argument values.  (The claim as frozen asserts preservation for *all*
argument values, which `addItem`/`priceItem` violate by storing negative
inputs verbatim.) -/
theorem store_invariant_preserved (N : Nat) (s : Store) (hInv : StoreInv s) :
    (∀ (id q : Int) (p d : ℚ), 0 ≤ q → 0 ≤ p → StoreInv (addItem N s id q p d)) ∧
    (∀ id : Int, StoreInv (removeItem N s id)) ∧
    (∀ id c : Int, StoreInv (addStock N s id c)) ∧
    (∀ (id : Int) (p : ℚ), 0 ≤ p → StoreInv (priceItem N s id p)) ∧
    (∀ (id : Int) (d : ℚ), StoreInv (discountItem N s id d)) ∧
    (∀ c : ℚ, StoreInv (setShippingCostTr N s c).1) ∧
    (∀ d : ℚ, StoreInv (setStoreDiscountTr N s d).1) ∧
    (∀ (id : Int) (b : ℚ) (s' : Store), buyItem N s id b = some s' → StoreInv s') ∧
    (∀ (ids : List Int) (b : ℚ), StoreInv (buyManyItems N s ids b).store) := by
  refine ⟨?_, ?_, ?_, ?_, ?_, ?_, ?_, ?_, ?_⟩
  · intro id q p d hq hp
    unfold addItem
    by_cases h0 : id < 0 ∨ (N : Int) ≤ id
    · rw [if_pos h0]; exact hInv
    · rw [if_neg h0]
      by_cases hv : (s.inventory id).valid
      · rw [if_pos hv]; exact hInv
      · rw [if_neg hv]
        exact storeInv_updInv s hInv id _ (fun _ => ⟨hq, hp⟩)
  · intro id
    unfold removeItem
    by_cases h0 : id < 0 ∨ (N : Int) ≤ id
    · rw [if_pos h0]; exact hInv
    · rw [if_neg h0]
      by_cases hv : (s.inventory id).valid
      · rw [if_pos hv]
        exact storeInv_updInv s hInv id _ (fun h => Bool.noConfusion h)
      · rw [if_neg hv]; exact hInv
  · intro id c
    unfold addStock
    by_cases h0 : id < 0 ∨ (N : Int) ≤ id
    · rw [if_pos h0]; exact hInv
    · rw [if_neg h0]
      by_cases hv : (s.inventory id).valid = true ∧ 0 < c
      · rw [if_pos hv]
        have hold := hInv id hv.1
        exact storeInv_updInv s hInv id _
          (fun _ => ⟨add_nonneg hold.1 (le_of_lt hv.2), hold.2⟩)
      · rw [if_neg hv]; exact hInv
  · intro id p hp
    unfold priceItem
    by_cases h0 : id < 0 ∨ (N : Int) ≤ id
    · rw [if_pos h0]; exact hInv
    · rw [if_neg h0]
      by_cases hv : (s.inventory id).valid
      · rw [if_pos hv]
        have hold := hInv id hv
        exact storeInv_updInv s hInv id _ (fun _ => ⟨hold.1, hp⟩)
      · rw [if_neg hv]; exact hInv
  · intro id d
    unfold discountItem
    by_cases h0 : id < 0 ∨ (N : Int) ≤ id
    · rw [if_pos h0]; exact hInv
    · rw [if_neg h0]
      by_cases hv : (s.inventory id).valid
      · rw [if_pos hv]
        have hold := hInv id hv
        exact storeInv_updInv s hInv id _ (fun _ => hold)
      · rw [if_neg hv]; exact hInv
  · intro c
    apply storeInv_of_inventory_eq s _ _ hInv
    unfold setShippingCostTr
    by_cases hf : s.fineMode = false
    · rw [if_pos hf]
    · rw [if_neg hf]
  · intro d
    apply storeInv_of_inventory_eq s _ _ hInv
    unfold setStoreDiscountTr
    by_cases hf : s.fineMode = false
    · rw [if_pos hf]
    · rw [if_neg hf]
  · intro id b s' hs'
    rw [buyItem_unfold] at hs'
    by_cases h0 : id < 0 ∨ (N : Int) ≤ id
    · rw [if_pos h0] at hs'
      exact (Option.some_injective _ hs') ▸ hInv
    · rw [if_neg h0] at hs'
      by_cases hv : (s.inventory id).valid = false
      · rw [if_pos hv] at hs'
        exact (Option.some_injective _ hs') ▸ hInv
      · rw [if_neg hv] at hs'
        by_cases hb : 0 < (s.inventory id).quantity ∧
            totalCost_nolock s (s.inventory id) ≤ b
        · rw [if_pos hb] at hs'
          have hvt : (s.inventory id).valid = true := by
            cases hvv : (s.inventory id).valid
            · exact absurd hvv hv
            · rfl
          have hold := hInv id hvt
          have := Option.some_injective _ hs'
          subst this
          exact storeInv_updInv s hInv id _
            (fun _ => ⟨show (0 : Int) ≤ (s.inventory id).quantity - 1 by omega, hold.2⟩)
        · rw [if_neg hb] at hs'
          exact Option.noConfusion hs'
  · intro ids b
    cases hc : (buyManyItems N s ids b).committed
    · rw [buyManyItems_store_of_not_committed N s ids b hc]
      exact hInv
    · rw [buyManyItems_store_of_committed N s ids b hc]
      have hpass := (buyManyItems_committed_iff N s ids b).mp hc
      intro j hv
      have heq : ({ s with inventory := decAll s.inventory (canonIds N ids) } : Store).inventory j
          = decAll s.inventory (canonIds N ids) j := rfl
      rw [heq] at hv ⊢
      rw [decAll_apply _ _ (canonIds_nodup N ids) j] at hv ⊢
      by_cases hm : j ∈ canonIds N ids
      · rw [if_pos hm] at hv ⊢
        have hj := hpass.2.1 j hm
        have hold := hInv j hj.1
        have hq := hj.2.1
        exact ⟨show (0 : Int) ≤ (s.inventory j).quantity - 1 by omega, hold.2⟩
      · rw [if_neg hm] at hv ⊢
        exact hInv j hv

/-- Counterexample to C7 as frozen: the empty store satisfies the
invariant, but `addItem(0, -1, 1, 0)` stores the negative quantity
verbatim, producing a valid slot with quantity `-1 < 0`. -/
theorem addItem_negative_breaks_invariant :
    StoreInv einv ∧ ¬ StoreInv (addItem 1 einv 0 (-1) 1 0) := by
  constructor
  · intro id hv
    simp [einv, Item.init] at hv
  · intro hInv
    have h := hInv 0 (by decide)
    exact absurd h.1 (by decide)

/-- Witness for C7 (amended): the theorem applies to the all-invalid store
`einv`, which satisfies the invariant. -/
theorem store_invariant_preserved_witness :
    StoreInv einv ∧
    ((∀ (id q : Int) (p d : ℚ), 0 ≤ q → 0 ≤ p → StoreInv (addItem 1 einv id q p d)) ∧
    (∀ id : Int, StoreInv (removeItem 1 einv id)) ∧
    (∀ id c : Int, StoreInv (addStock 1 einv id c)) ∧
    (∀ (id : Int) (p : ℚ), 0 ≤ p → StoreInv (priceItem 1 einv id p)) ∧
    (∀ (id : Int) (d : ℚ), StoreInv (discountItem 1 einv id d)) ∧
    (∀ c : ℚ, StoreInv (setShippingCostTr 1 einv c).1) ∧
    (∀ d : ℚ, StoreInv (setStoreDiscountTr 1 einv d).1) ∧
    (∀ (id : Int) (b : ℚ) (s' : Store), buyItem 1 einv id b = some s' → StoreInv s') ∧
    (∀ (ids : List Int) (b : ℚ), StoreInv (buyManyItems 1 einv ids b).store)) :=
  have heinv : StoreInv einv := fun id hv => by simp [einv, Item.init] at hv
  ⟨heinv, store_invariant_preserved 1 einv heinv⟩

lemma enqueueAll_q : ∀ (ts : List Task) (tq : TaskQueue),
    (enqueueAll tq ts).q = tq.q ++ ts := by
  intro ts
  induction ts with
  | nil => intro tq; simp [enqueueAll]
  | cons t rest ih =>
    intro tq
    show (enqueueAll (TaskQueue.mk (tq.q ++ [t])) rest).q = _
    rw [ih]
    simp

/-- Claim C8: the task queue is a FIFO — `enqueue` appends at the tail,
never blocks, and wakes at most one blocked consumer (a signal, not a
broadcast); `dequeue` removes and returns the head and blocks exactly when
the queue is empty; and a single producer's tasks are delivered exactly
once, in enqueue order. -/
theorem taskQueue_fifo :
    (∀ (tq : TaskQueue) (t : Task),
      (tq.enqueue t).1.q = tq.q ++ [t] ∧ (tq.enqueue t).2 = WakeEvent.signal) ∧
    (∀ tq : TaskQueue, tq.dequeue = none ↔ tq.q = []) ∧
    (∀ (t : Task) (ts : List Task),
      TaskQueue.dequeue ⟨t :: ts⟩ = some (t, ⟨ts⟩)) ∧
    (∀ ts : List Task, (enqueueAll ⟨[]⟩ ts).q = ts) := by
  refine ⟨fun tq t => ⟨rfl, rfl⟩, ?_, fun t ts => rfl, ?_⟩
  · intro tq
    cases tq with
    | mk q =>
      cases q with
      | nil => simp [TaskQueue.dequeue]
      | cons t ts => simp [TaskQueue.dequeue]
  · intro ts
    rw [enqueueAll_q]
    rfl

/-- Claim C9 (amended): a worker executes each real task (non-null handler,
not the stop handler) exactly once in dequeue order and terminates upon
dequeuing a task whose handler equals `stop_handler`; recognition is by
comparing the `handler` field against the `stop_handler` function pointer,
so the `make_stop` sentinel (null handler) is *not* recognized — on it the
worker falls through to calling the null handler.  (The claim as frozen
asserts recognition by variant, never by function-pointer identity, which
the code contradicts.) -/
theorem worker_run_spec (ts rest : List Task) (t : Task)
    (hreal : ∀ u ∈ ts, u.handler ≠ none ∧ u.handler ≠ some HandlerId.stop)
    (hstop : t.handler = some HandlerId.stop) :
    workerRun (ts ++ t :: rest) = ts.map WorkerEvent.exec ++ [WorkerEvent.exited] := by
  induction ts with
  | nil =>
    simp only [List.nil_append, List.map_nil]
    show (if t.handler = some HandlerId.stop then [WorkerEvent.exited]
      else match t.handler with
        | none => [WorkerEvent.nullCall]
        | some _ => WorkerEvent.exec t :: workerRun rest) = _
    rw [if_pos hstop]
  | cons u us ih =>
    obtain ⟨hn, hs⟩ := hreal u (List.mem_cons_self u us)
    simp only [List.cons_append, List.map_cons]
    show (if u.handler = some HandlerId.stop then [WorkerEvent.exited]
      else match u.handler with
        | none => [WorkerEvent.nullCall]
        | some _ => WorkerEvent.exec u :: workerRun (us ++ t :: rest)) = _
    rw [if_neg hs]
    cases hh : u.handler with
    | none => exact absurd hh hn
    | some h =>
      simp only
      rw [ih (fun v hv => hreal v (List.mem_cons_of_mem _ hv))]

/-- Counterexample to C9 as frozen: `make_stop` builds the stop sentinel
with a null handler (estoresim.cpp:48-50), but the worker loop recognizes
stop by `t.handler == stop_handler` (estoresim.cpp:122), so on the
`make_stop` task it does not terminate cleanly — it calls the null
handler instead. -/
theorem worker_stop_by_pointer_cex :
    make_stop.handler = none ∧
    workerRun [make_stop] ≠ [WorkerEvent.exited] ∧
    workerRun [make_stop] = [WorkerEvent.nullCall] := by
  refine ⟨rfl, ?_, rfl⟩
  decide

/-- Witness for C9 (amended): one real task followed by a `stop_handler`
task; the worker executes the real task then exits. -/
theorem worker_run_spec_witness :
    (∀ u ∈ [Task.mk (some HandlerId.buy_item) 0],
      u.handler ≠ none ∧ u.handler ≠ some HandlerId.stop) ∧
    (Task.mk (some HandlerId.stop) 0).handler = some HandlerId.stop ∧
    workerRun ([Task.mk (some HandlerId.buy_item) 0] ++
        Task.mk (some HandlerId.stop) 0 :: []) =
      [Task.mk (some HandlerId.buy_item) 0].map WorkerEvent.exec ++
        [WorkerEvent.exited] :=
  ⟨by decide, rfl,
    worker_run_spec [Task.mk (some HandlerId.buy_item) 0] []
      (Task.mk (some HandlerId.stop) 0) (by decide) rfl⟩

end Lab3
